import Mathlib

/-!
# BasicTerminal: a shallow embedding of `my_shell.c`

The development follows the parent process of the shell through one command
cycle of `main`.

* C strings are lists of characters (the characters before the terminating
  NUL); tokens are `String`s.
* A NULL-terminated `char **` vector is the list of its entries before the
  terminator, so `tokens[i] == NULL` is `tokens[i]? = none`.
* The two job trackers are lists of `Int` cells, `0` being the empty cell
  (`NULL` in the source).
* System calls do not run: each one appends an `Event` to the trace of the
  `World`, and whatever it returns is read from the environment `Env`.
* `fork` returns twice in C; the embedding follows the parent only.  The child
  either becomes the program named by its argument vector or prints
  `Shell: Incorrect command` and exits, so it never comes back to the loop.
* The asynchronous flag `stop` is cleared at the top of a cycle and set by the
  SIGINT handler at an arbitrary moment.  `World.stopIn` fixes that moment,
  counted in reads of `stop`: `some k` lets the next `k` reads see `0` and every
  later read see `1`; `none` is a cycle without interrupt.
* Undefined behaviour of the C program (a write past a buffer, a NULL handed to
  `strcmp`, `free` of a value that no `malloc` returned) is an explicit `Fault`.
* Memory that `malloc` returns is not initialised.  The chain loops allocate
  `tokensBuffer` afresh in every turn and read one cell they never wrote, the
  cell after the last token copied, as the end mark of the vector; whether that
  cell holds NULL is an answer of the environment, `Env.leftover`.
* A `while` loop of the source is a function with a budget of turns;
  `dispatch_within_budget` shows that the budgets `dispatch` gives are never
  used up, so that `Fault.outOfFuel` is not a behaviour of the embedding.
-/

namespace MyShell

/-! ## Constants -/

def MAX_INPUT_SIZE : Nat := 1024

def MAX_TOKEN_SIZE : Nat := 64

def MAX_NUM_TOKENS : Nat := 64

/-! ## tokenize (lines 14-37) -/

/-- The delimiter test of `tokenize`: space, newline or tab. -/
def isDelim (readChar : Char) : Bool :=
  readChar == ' ' || readChar == '\n' || readChar == '\t'

/-- Loop state of `tokenize`: `token` holds `token[0 .. tokenIndex)` and
`tokens` holds `tokens[0 .. tokenNo)`. -/
structure TokState where
  token : List Char
  tokens : List String
deriving DecidableEq

/-- One iteration of the `for` loop of `tokenize`.  `none` is a write outside
the 64-byte `token` buffer or outside the 64-cell `tokens` array. -/
def tokenizeStep (s : TokState) (readChar : Char) : Option TokState :=
  if isDelim readChar then
    -- token[tokenIndex] = 0
    if s.token.length < MAX_TOKEN_SIZE then
      if s.token.length ≠ 0 then
        -- tokens[tokenNo++] = copy of token; tokenIndex = 0
        if s.tokens.length < MAX_NUM_TOKENS then
          some { token := [], tokens := s.tokens ++ [String.mk s.token] }
        else none
      else some s
    else none
  else
    -- token[tokenIndex++] = readChar
    if s.token.length < MAX_TOKEN_SIZE then
      some { s with token := s.token ++ [readChar] }
    else none

/-- The `for` loop of `tokenize` over the characters of the line. -/
def tokenizeLoop : List Char → TokState → Option TokState
  | [], s => some s
  | readChar :: rest, s => (tokenizeStep s readChar).bind (tokenizeLoop rest)

/-- The function `tokenize`: the loop, then `tokens[tokenNo] = NULL`.  The
characters still in `token` when the line ends are freed with the buffer. -/
def tokenize (line : List Char) : Option (List String) :=
  match tokenizeLoop line { token := [], tokens := [] } with
  | some s => if s.tokens.length < MAX_NUM_TOKENS then some s.tokens else none
  | none => none

/-- What the description of the tokenizer says it returns: the line cut at
every delimiter, the empty pieces dropped. -/
def maximalRuns (line : List Char) : List String :=
  ((line.splitOnP isDelim).filter (fun run => !run.isEmpty)).map String.mk

/-! ## The run-mode scan of main (lines 138-162) -/

/-- The three counters of the classifier loop. -/
structure ScanState where
  tokenCnt : Nat
  positionCheck : Nat
  runMode : Nat
deriving DecidableEq

/-- One iteration of the classifier loop (lines 141-157). -/
def scanStep (s : ScanState) (tok : String) : ScanState :=
  let tokenCnt := s.tokenCnt + 1
  let s1 : ScanState :=
    if tok = "&" then { tokenCnt := tokenCnt, positionCheck := tokenCnt, runMode := 1 }
    else { s with tokenCnt := tokenCnt }
  let s2 : ScanState := if tok = "&&" then { s1 with runMode := 2 } else s1
  if tok = "&&&" then { s2 with runMode := 3 } else s2

/-- The classifier loop over the whole vector, from `tokenCnt = 0`,
`positionCheck = 0`, `runMode = 0`. -/
def scanTokens (tokens : List String) : ScanState :=
  tokens.foldl scanStep { tokenCnt := 0, positionCheck := 0, runMode := 0 }

/-- The value of `runMode` that reaches the `switch`: the scan, then the check
of lines 160-162 that sends a misplaced `&` back to mode 0.
0 is foreground, 1 background, 2 sequential, 3 parallel. -/
def runMode (tokens : List String) : Nat :=
  let s := scanTokens tokens
  if s.runMode = 1 ∧ s.positionCheck ≠ s.tokenCnt then 0 else s.runMode

/-- The selection rule as the description words it: `&&&` anywhere, else `&&`
anywhere, else a final `&`, else foreground. -/
def precedenceMode (tokens : List String) : Nat :=
  if "&&&" ∈ tokens then 3
  else if "&&" ∈ tokens then 2
  else if tokens.getLast? = some "&" then 1
  else 0

/-- The three control tokens. -/
def isControl (tok : String) : Bool :=
  tok == "&" || tok == "&&" || tok == "&&&"

/-- The mode the last control token of the vector stands for. -/
def lastControlMode (tokens : List String) : Nat :=
  match (tokens.filter isControl).getLast? with
  | none => 0
  | some tok =>
    if tok = "&&&" then 3
    else if tok = "&&" then 2
    else if tokens.getLast? = some "&" then 1
    else 0

/-- The raw mode the scan leaves for a given last control token. -/
def rawMode : Option String → Nat
  | none => 0
  | some tok => if tok = "&&&" then 3 else if tok = "&&" then 2 else 1

/-! ## The world of the parent process -/

/-- System calls and console output of the parent, in program order. -/
inductive Event where
  /-- The call `fork()` returned `pid` in the parent; the child calls `setpgid(0, 0)`
  first when `detached`, then `execvp(argv[0], argv)`. -/
  | fork (argv : List String) (detached : Bool) (pid : Int)
  /-- The call `chdir(path)`, `none` being a NULL path. -/
  | chdir (path : Option String)
  /-- The call `perror(what)`. -/
  | perror (what : String)
  /-- The call `printf(msg)`. -/
  | print (msg : String)
  /-- The call `kill(pid, SIGTERM)`. -/
  | kill (pid : Int)
  /-- The call `waitpid(pid, &status, nohang ? WNOHANG : 0)`. -/
  | waitpid (pid : Int) (nohang : Bool)
deriving DecidableEq

/-- What the operating system answers. -/
structure Env where
  /-- Value of the n-th `fork()` in the parent: the pid of the child. -/
  forkRet : Nat → Int
  /-- Return value of `chdir`. -/
  chdirRet : Option String → Int
  /-- Exit status a blocking `waitpid` stores for a pid. -/
  exitStatus : Int → Int
  /-- Return value of `waitpid(pid, &status, WNOHANG)`. -/
  nohangRet : Int → Int
  /-- Content of the memory `malloc` returns for `tokensBuffer`: `leftover turn i`
  says that cell `i` of the buffer allocated in turn `turn` of a chain loop
  holds something other than NULL before the turn writes to it. -/
  leftover : Nat → Nat → Bool

/-- State of the parent process. -/
structure World where
  backgroundTracker : List Int
  foregroundTracker : List Int
  /-- Reads of `stop` that still see 0; `none` when no interrupt comes. -/
  stopIn : Option Nat
  /-- Number of `fork()` calls made so far. -/
  forks : Nat
  trace : List Event
deriving DecidableEq

/-- Undefined behaviour and the exhaustion of the loop budget. -/
inductive Fault where
  | nullDeref
  | outOfBounds
  /-- The call `free(p)` on what was found in a cell that was never written. -/
  | wildFree
  | outOfFuel
deriving DecidableEq

/-- Outcome of a fallible piece of the program. -/
inductive Outcome (α : Type) where
  | ok (a : α)
  | fault (f : Fault)
deriving DecidableEq

def emit (e : Event) (w : World) : World :=
  { w with trace := w.trace ++ [e] }

/-- One read of the volatile flag `stop`. -/
def readStop (w : World) : Bool × World :=
  match w.stopIn with
  | none => (false, w)
  | some 0 => (true, w)
  | some (k + 1) => (false, { w with stopIn := some k })

/-- The call `fork()` as seen by the parent, with the argument vector the child
goes on to execute. -/
def fork (env : Env) (argv : List String) (detached : Bool) (w : World) : Int × World :=
  let forkRet := env.forkRet w.forks
  (forkRet, emit (Event.fork argv detached forkRet) { w with forks := w.forks + 1 })

/-- A blocking `waitpid(pid, &status, 0)`; the first component is `status`. -/
def waitpid (env : Env) (pid : Int) (w : World) : Int × World :=
  (env.exitStatus pid, emit (Event.waitpid pid false) w)

/-! ## changeDir (lines 40-50) -/

/-- The function `changeDir(tokens, tokenCnt)`. -/
def changeDir (env : Env) (tokens : List String) (tokenCnt : Nat) (w : World) : World :=
  if tokenCnt > 2 then
    emit (Event.print "Shell: Incorrect command\n") w
  else
    let w1 := emit (Event.chdir tokens[1]?) w
    if env.chdirRet tokens[1]? ≠ 0 then emit (Event.perror "cd") w1 else w1

/-! ## The job trackers -/

/-- The insert loop of lines 185-190 and 285-290, from index `i` with `n`
iterations left: the first cell holding 0 receives the pid, then `break`. -/
def trackerInsertFrom (pid : Int) : Nat → Nat → List Int → List Int
  | 0, _, t => t
  | n + 1, i, t =>
    if t.getD i 0 = 0 then t.set i pid else trackerInsertFrom pid n (i + 1) t

/-- The insert loop over the `MAX_NUM_TOKENS` cells of a tracker. -/
def trackerInsert (t : List Int) (pid : Int) : List Int :=
  trackerInsertFrom pid MAX_NUM_TOKENS 0 t

/-- The assignment `tracker[i] = NULL`. -/
def trackerClear (t : List Int) (i : Nat) : List Int :=
  t.set i 0

/-- The all-empty tracker of `MAX_NUM_TOKENS` cells. -/
def emptyTracker : List Int :=
  List.replicate MAX_NUM_TOKENS 0

/-! ## The bodies of the four run modes (lines 164-340) -/

/-- Background mode, `case 1`.  The assignment `tokens[tokenCnt - 1] = NULL`
cuts the vector there; `tokenCnt` itself is not changed. -/
def runBackground (env : Env) (tokens : List String) (tokenCnt : Nat) (w : World) :
    Outcome World :=
  let tokens1 := tokens.take (tokenCnt - 1)
  match tokens1[0]? with
  | none => Outcome.fault Fault.nullDeref
  | some first =>
    if first = "cd" then
      Outcome.ok (changeDir env tokens1 tokenCnt w)
    else
      let r := fork env tokens1 true w
      Outcome.ok { r.2 with backgroundTracker := trackerInsert r.2.backgroundTracker r.1 }

/-- Standard foreground mode, the `default` case. -/
def runForeground (env : Env) (tokens : List String) (tokenCnt : Nat) (w : World) :
    Outcome World :=
  match tokens[0]? with
  | none => Outcome.fault Fault.nullDeref
  | some first =>
    if first = "cd" then
      Outcome.ok (changeDir env tokens tokenCnt w)
    else
      let r := fork env tokens false w
      let s := readStop r.2
      let w1 := if s.1 then emit (Event.kill r.1) s.2 else s.2
      Outcome.ok (waitpid env r.1 w1).2

/-- The inner `for` loop of lines 203-210 and 253-260.  The first argument is
the unread part `tokens[tokenTracker ..]` of the vector, the second the cells
`tokensBuffer[0 .. tokensBufferCnt)` written so far; the result is the written
cells and the unread part left when the loop ends.  No NULL is stored after the
written cells: the cell `tokensBuffer[tokensBufferCnt]` keeps what `malloc`
left in it. -/
def fillBuffer (sep : String) : List String → List String → List String × List String
  | [], tokensBuffer => (tokensBuffer, [])
  | tok :: rest, tokensBuffer =>
    if tok = sep then (tokensBuffer, rest)
    else fillBuffer sep rest (tokensBuffer ++ [tok])

/-- What the sequential loop does with a sub-command that is not empty (lines
214-234): `cd` in the parent, or fork, check `stop`, wait.  The argument is the
list of the written cells of `tokensBuffer`; `execvp` and `changeDir` see the
vector end there exactly when the next cell holds NULL, and `seqTurn` faults
when it does not. -/
def seqCommand (env : Env) (tokensBuffer : List String) (w : World) : World :=
  if tokensBuffer[0]? = some "cd" then
    changeDir env tokensBuffer tokensBuffer.length w
  else
    let r := fork env tokensBuffer false w
    let s := readStop r.2
    let w1 := if s.1 then emit (Event.kill r.1) s.2 else s.2
    (waitpid env r.1 w1).2

/-- The body of the `while` loop of sequential mode (lines 200-241) in turn
`turn`: `malloc` of `tokensBuffer`, the inner `for`, the sub-command, and the
loop of lines 238-240 that frees `tokensBuffer[i]` up to the first NULL.  That
loop frees the written cells and then reads the cell after them, which the turn
never wrote: when `malloc` left something there it is handed to `free`.  The
result is the unread part and the world after the turn. -/
def seqTurn (env : Env) (turn : Nat) (unread : List String) (w : World) :
    Outcome (List String × World) :=
  let b := fillBuffer "&&" unread []
  if MAX_NUM_TOKENS ≤ b.1.length then Outcome.fault Fault.outOfBounds
  else
    let w1 := if b.1.length > 0 then seqCommand env b.1 w else w
    if env.leftover turn b.1.length then Outcome.fault Fault.wildFree
    else Outcome.ok (b.2, w1)

/-- The `while` loop of sequential mode (lines 199-242) from turn `turn` on the
unread part of the vector; `tokenTracker < tokenCnt` is "the unread part is not
empty". -/
def seqLoop (env : Env) : Nat → Nat → List String → World → Outcome World
  | 0, _, _, _ => Outcome.fault Fault.outOfFuel
  | fuel + 1, turn, unread, w =>
    if unread ≠ [] then
      let s := readStop w
      if !s.1 then
        match seqTurn env turn unread s.2 with
        | Outcome.ok r => seqLoop env fuel (turn + 1) r.1 r.2
        | Outcome.fault f => Outcome.fault f
      else Outcome.ok s.2
    else Outcome.ok w

/-- The loop of lines 277-281: SIGTERM to every pid in the foreground tracker,
from index `i` with `n` iterations left. -/
def killTrackedFrom (t : List Int) : Nat → Nat → World → World
  | 0, _, w => w
  | n + 1, i, w =>
    killTrackedFrom t n (i + 1) (if t.getD i 0 ≠ 0 then emit (Event.kill (t.getD i 0)) w else w)

/-- What the parallel loop does with a sub-command that is not empty (lines
264-293).  The argument is the list of the written cells of `tokensBuffer`, as
for `seqCommand`. -/
def parCommand (env : Env) (tokensBuffer : List String) (w : World) : World :=
  if tokensBuffer[0]? = some "cd" then
    changeDir env tokensBuffer tokensBuffer.length w
  else
    let r := fork env tokensBuffer false w
    let s := readStop r.2
    if s.1 then
      killTrackedFrom s.2.foregroundTracker MAX_NUM_TOKENS 0 s.2
    else
      { s.2 with foregroundTracker := trackerInsert s.2.foregroundTracker r.1 }

/-- The body of the launch loop of parallel mode (lines 250-300) in turn
`turn`, with the free loop of lines 297-299, as `seqTurn`. -/
def parTurn (env : Env) (turn : Nat) (unread : List String) (w : World) :
    Outcome (List String × World) :=
  let b := fillBuffer "&&&" unread []
  if MAX_NUM_TOKENS ≤ b.1.length then Outcome.fault Fault.outOfBounds
  else
    let w1 := if b.1.length > 0 then parCommand env b.1 w else w
    if env.leftover turn b.1.length then Outcome.fault Fault.wildFree
    else Outcome.ok (b.2, w1)

/-- The launch loop of parallel mode (lines 249-301) from turn `turn`. -/
def parLoop (env : Env) : Nat → Nat → List String → World → Outcome World
  | 0, _, _, _ => Outcome.fault Fault.outOfFuel
  | fuel + 1, turn, unread, w =>
    if unread ≠ [] then
      let s := readStop w
      if !s.1 then
        match parTurn env turn unread s.2 with
        | Outcome.ok r => parLoop env fuel (turn + 1) r.1 r.2
        | Outcome.fault f => Outcome.fault f
      else Outcome.ok s.2
    else Outcome.ok w

/-- The inner `for` of the reap loop (lines 306-313): the index at which it
breaks, `none` when it runs to `MAX_NUM_TOKENS`. -/
def firstTrackedFrom (t : List Int) : Nat → Nat → Option Nat
  | 0, _ => none
  | n + 1, i => if t.getD i 0 ≠ 0 then some i else firstTrackedFrom t n (i + 1)

/-- The reap loop of parallel mode (lines 304-314). -/
def reapForeground (env : Env) : Nat → World → Option World
  | 0, _ => none
  | fuel + 1, w =>
    match firstTrackedFrom w.foregroundTracker MAX_NUM_TOKENS 0 with
    | some foregroundCnt =>
      let r := waitpid env (w.foregroundTracker.getD foregroundCnt 0) w
      reapForeground env fuel
        { r.2 with foregroundTracker := trackerClear r.2.foregroundTracker foregroundCnt }
    | none => some w

/-- Lifts a loop that ran within its budget. -/
def ofLoop : Option World → Outcome World
  | some w => Outcome.ok w
  | none => Outcome.fault Fault.outOfFuel

/-- Sequential foreground mode, `case 2`. -/
def runSequential (env : Env) (tokens : List String) (tokenCnt : Nat) (w : World) :
    Outcome World :=
  seqLoop env (tokenCnt + 1) 0 tokens w

/-- Parallel foreground mode, `case 3`: the launch loop, then the reap loop. -/
def runParallel (env : Env) (tokens : List String) (tokenCnt : Nat) (w : World) :
    Outcome World :=
  match parLoop env (tokenCnt + 1) 0 tokens w with
  | Outcome.ok w1 => ofLoop (reapForeground env (MAX_NUM_TOKENS + 1) w1)
  | Outcome.fault f => Outcome.fault f

/-- The classifier and the `switch` (lines 138-340). -/
def dispatch (env : Env) (tokens : List String) (w : World) : Outcome World :=
  let tokenCnt := (scanTokens tokens).tokenCnt
  match runMode tokens with
  | 1 => runBackground env tokens tokenCnt w
  | 2 => runSequential env tokens tokenCnt w
  | 3 => runParallel env tokens tokenCnt w
  | _ => runForeground env tokens tokenCnt w

/-! ## The command cycle (lines 90-361) -/

/-- The loop of the `exit` built-in (lines 121-126), from index `i` with `n`
iterations left: SIGTERM and a blocking wait for every background pid. -/
def exitKillFrom (env : Env) : Nat → Nat → World → World
  | 0, _, w => w
  | n + 1, i, w =>
    let pid := w.backgroundTracker.getD i 0
    exitKillFrom env n (i + 1)
      (if pid ≠ 0 then (waitpid env pid (emit (Event.kill pid) w)).2 else w)

/-- The sweep that ends every cycle (lines 351-360), from index `i` with `n`
iterations left. -/
def sweepFrom (env : Env) : Nat → Nat → World → World
  | 0, _, w => w
  | n + 1, i, w =>
    let pid := w.backgroundTracker.getD i 0
    sweepFrom env n (i + 1)
      (if pid ≠ 0 then
        let w1 := emit (Event.waitpid pid true) w
        if env.nohangRet pid ≠ 0 then
          emit (Event.print "Shell: Background process finished\n")
            { w1 with backgroundTracker := trackerClear w1.backgroundTracker i }
        else w1
      else w)

/-- The sweep over the whole background tracker. -/
def sweep (env : Env) (w : World) : World :=
  sweepFrom env MAX_NUM_TOKENS 0 w

/-- Lines 116-341 for a tokenized line: the `exit` test on `tokens[0]`, then
the dispatch.  The flag is `hasExited`. -/
def execute (env : Env) (tokens : List String) (w : World) : Outcome (World × Bool) :=
  match tokens[0]? with
  | none => Outcome.fault Fault.nullDeref
  | some first =>
    if first = "exit" then
      Outcome.ok (exitKillFrom env MAX_NUM_TOKENS 0 w, true)
    else
      match dispatch env tokens w with
      | Outcome.ok w1 => Outcome.ok (w1, false)
      | Outcome.fault f => Outcome.fault f

/-- One turn of the prompt loop for the line the reader delivered (its newline
already stripped): the emptiness test of line 112, the newline put back, then
`tokenize`, `execute` and the sweep of the background tracker. -/
def commandCycle (env : Env) (line : List Char) (w : World) : Outcome (World × Bool) :=
  if line ≠ [] then
    match tokenize (line ++ ['\n']) with
    | none => Outcome.fault Fault.outOfBounds
    | some tokens =>
      match execute env tokens w with
      | Outcome.ok r => Outcome.ok (sweep env r.1, r.2)
      | Outcome.fault f => Outcome.fault f
  else Outcome.ok (sweep env w, false)

/-! ## What the description promises of the chain modes -/

/-- The vector cut at every occurrence of the separator token, the empty
pieces dropped. -/
def pieces (sep : String) (tokens : List String) : List (List String) :=
  (tokens.splitOn sep).filter (fun piece => !piece.isEmpty)

/-- The argument vectors of the processes launched in a trace, in order. -/
def launched (trace : List Event) : List (List String) :=
  trace.filterMap (fun e =>
    match e with
    | Event.fork argv _ _ => some argv
    | _ => none)

/-- The events of a built-in `cd` given the vector `tokens` and the count
`tokenCnt`. -/
def cdTrace (env : Env) (tokens : List String) (tokenCnt : Nat) : List Event :=
  if tokenCnt > 2 then [Event.print "Shell: Incorrect command\n"]
  else if env.chdirRet tokens[1]? ≠ 0 then [Event.chdir tokens[1]?, Event.perror "cd"]
  else [Event.chdir tokens[1]?]

/-- The trace of a chain that runs strictly one sub-command after the other:
a `cd` runs in the parent, every other sub-command is forked and waited for
before the next one starts.  The number is the count of earlier forks. -/
def seqTrace (env : Env) : Nat → List (List String) → List Event
  | _, [] => []
  | forks, piece :: rest =>
    if piece[0]? = some "cd" then
      cdTrace env piece piece.length ++ seqTrace env forks rest
    else
      [Event.fork piece false (env.forkRet forks), Event.waitpid (env.forkRet forks) false]
        ++ seqTrace env (forks + 1) rest

/-- An operating system that numbers the children from 100, lets every
`chdir` succeed, reports exit status 256 (that of `exit(1)`) for every child,
and finds no background child finished.  Its `malloc` returns zeroed memory for
the first `tokensBuffer` of a chain and, for every later one, the block freed at
the end of the turn before, in whose first cell the allocator has left a value
that is not NULL; the other cells of such a block are taken to read NULL. -/
def demoEnv : Env :=
  { forkRet := fun n => 100 + n, chdirRet := fun _ => 0, exitStatus := fun _ => 256,
    nohangRet := fun _ => 0, leftover := fun turn i => turn != 0 && i == 0 }

/-- The parent at the start of a cycle in which no interrupt comes, both
trackers empty. -/
def startWorld : World :=
  { backgroundTracker := emptyTracker, foregroundTracker := emptyTracker, stopIn := none,
    forks := 0, trace := [] }

/-- The built-in rejected the call: it printed the incorrect-command notice. -/
def rejected (events : List Event) : Bool :=
  events.contains (Event.print "Shell: Incorrect command\n")

/-- The built-in attempted a directory change: it called `chdir`. -/
def attempted (events : List Event) : Bool :=
  events.any (fun e =>
    match e with
    | Event.chdir _ => true
    | _ => false)

/-! # Theorems -/

/-! ## The classifier -/

theorem scanTokens_append (l : List String) (tok : String) :
    scanTokens (l ++ [tok]) = scanStep (scanTokens l) tok := by
  simp [scanTokens, List.foldl_append]

theorem scanTokens_inv (l : List String) :
    (scanTokens l).tokenCnt = l.length ∧
    (scanTokens l).positionCheck ≤ l.length ∧
    ((scanTokens l).positionCheck = l.length → l ≠ [] → l.getLast? = some "&") ∧
    (l.getLast? = some "&" → (scanTokens l).positionCheck = l.length) ∧
    (scanTokens l).runMode = rawMode (l.filter isControl).getLast? := by
  induction l using List.reverseRecOn with
  | nil => simp [scanTokens, rawMode]
  | append_singleton l tok ih =>
    obtain ⟨h1, h2, h3, h4, h5⟩ := ih
    rw [scanTokens_append]
    by_cases ha : tok = "&"
    · subst ha
      simp [scanStep, h1, rawMode, List.filter_append, isControl]
    · by_cases hb : tok = "&&"
      · subst hb
        simp [scanStep, h1, rawMode, List.filter_append, isControl]
        omega
      · by_cases hc : tok = "&&&"
        · subst hc
          simp [scanStep, h1, rawMode, List.filter_append, isControl]
          omega
        · simp [scanStep, h1, ha, hb, hc, List.filter_append, isControl, h5]
          omega

theorem runMode_lastControl (tokens : List String) :
    runMode tokens = lastControlMode tokens := by
  obtain ⟨h1, h2, h3, h4, h5⟩ := scanTokens_inv tokens
  unfold runMode lastControlMode
  simp only [h5, h1]
  cases hlc : (tokens.filter isControl).getLast? with
  | none => simp [rawMode]
  | some tok =>
    have hmem : tok ∈ tokens.filter isControl := List.mem_of_getLast?_eq_some hlc
    have hctl : isControl tok = true := (List.mem_filter.mp hmem).2
    by_cases hc : tok = "&&&"
    · simp [rawMode, hc]
    · by_cases hb : tok = "&&"
      · simp [rawMode, hb]
      · have ha : tok = "&" := by simpa [isControl, hb, hc] using hctl
        have hne : tokens ≠ [] := by
          intro h; subst h; simp at hmem
        simp only [rawMode, hc, hb, if_false]
        by_cases hl : tokens.getLast? = some "&"
        · simp [hl, h4 hl]
        · have : (scanTokens tokens).positionCheck ≠ tokens.length := fun h => hl (h3 h hne)
          simp [hl, this]

/-- Claim C1, as the code has it: the run mode that reaches the switch is the
one of the LAST control token of the vector, whatever stands before it: mode 3
when that token is "&&&", mode 2 when it is "&&", mode 1 when it is "&" and
ends the vector, and mode 0 otherwise. -/
theorem runMode_eq_lastControlMode (tokens : List String) :
    runMode tokens = lastControlMode tokens :=
  runMode_lastControl tokens

/-- Claim C1 fails as stated: in "a &&& b && c" the later "&&" overrides the
"&&&" and the line runs in sequential mode, and in "a && b &" the final "&"
overrides the "&&" and the line runs in background mode. -/
theorem runMode_not_precedence :
    (runMode ["a", "&&&", "b", "&&", "c"] = 2 ∧
      precedenceMode ["a", "&&&", "b", "&&", "c"] = 3) ∧
    (runMode ["a", "&&", "b", "&"] = 1 ∧
      precedenceMode ["a", "&&", "b", "&"] = 2) := by
  decide


/-! ## tokenize -/

theorem splitOnP_go_snoc (p : Char → Bool) (d : Char) (hd : p d = true) (init acc : List Char) :
    List.splitOnP.go p (init ++ [d]) acc = List.splitOnP.go p init acc ++ [[]] := by
  induction init generalizing acc with
  | nil => simp [List.splitOnP.go, hd]
  | cons a t ih =>
    by_cases ha : p a = true
    · simp [List.splitOnP.go, ha, ih]
    · simp [List.splitOnP.go, ha, ih]

theorem splitOnP_go_clean (p : Char → Bool) (l acc : List Char)
    (hacc : ∀ c ∈ acc, p c = false) :
    ∀ r ∈ List.splitOnP.go p l acc, ∀ c ∈ r, p c = false := by
  induction l generalizing acc with
  | nil =>
    intro r hr c hc
    simp [List.splitOnP.go] at hr
    subst hr
    exact hacc c (by simpa using hc)
  | cons a t ih =>
    intro r hr c hc
    by_cases ha : p a = true
    · simp only [List.splitOnP.go, ha, if_true, List.mem_cons] at hr
      rcases hr with hr | hr
      · subst hr
        exact hacc c (by simpa using hc)
      · exact ih [] (by simp) r hr c hc
    · simp only [List.splitOnP.go, ha] at hr
      refine ih (a :: acc) ?_ r hr c hc
      intro c hc
      rcases List.mem_cons.mp hc with h | h
      · subst h; simpa using ha
      · exact hacc c h

theorem splitOnP_go_long (p : Char → Bool) (l acc : List Char) :
    ∃ r ∈ List.splitOnP.go p l acc, acc.length ≤ r.length := by
  induction l generalizing acc with
  | nil => exact ⟨acc.reverse, by simp [List.splitOnP.go], by simp⟩
  | cons a t ih =>
    by_cases ha : p a = true
    · exact ⟨acc.reverse, by simp [List.splitOnP.go, ha], by simp⟩
    · obtain ⟨r, hr, hle⟩ := ih (a :: acc)
      refine ⟨r, by simpa [List.splitOnP.go, ha] using hr, ?_⟩
      simp only [List.length_cons] at hle
      omega

theorem tokenizeLoop_go (line : List Char) :
    ∀ (tok : List Char) (toks : List String),
      (∀ r ∈ List.splitOnP.go isDelim line tok.reverse, r.length < MAX_TOKEN_SIZE) →
      toks.length +
        (((List.splitOnP.go isDelim line tok.reverse).dropLast).filter
          (fun run => !run.isEmpty)).length ≤ MAX_NUM_TOKENS →
      tokenizeLoop line { token := tok, tokens := toks } =
        some { token := (List.splitOnP.go isDelim line tok.reverse).getLastD [],
               tokens := toks ++
                 (((List.splitOnP.go isDelim line tok.reverse).dropLast).filter
                   (fun run => !run.isEmpty)).map String.mk } := by
  induction line with
  | nil =>
    intro tok toks _ _
    simp [List.splitOnP.go, tokenizeLoop]
  | cons x xs ih =>
    intro tok toks hlen hcnt
    have hne : ∀ acc, List.splitOnP.go isDelim xs acc ≠ [] :=
      fun acc => List.splitOnP.go_ne_nil _ _ _
    by_cases hx : isDelim x = true
    · simp only [List.splitOnP.go, hx, if_true, List.reverse_reverse] at hlen hcnt ⊢
      have htok : tok.length < MAX_TOKEN_SIZE := hlen tok (by simp)
      rw [List.dropLast_cons_of_ne_nil (hne [])] at hcnt ⊢
      have hlast : (tok :: List.splitOnP.go isDelim xs []).getLastD [] =
          (List.splitOnP.go isDelim xs []).getLastD [] := by
        cases h : List.splitOnP.go isDelim xs [] with
        | nil => exact absurd h (hne [])
        | cons a t => simp [List.getLastD]
      rw [hlast]
      by_cases hemp : tok = []
      · subst hemp
        have := ih [] toks (by
          intro r hr; simp only [List.reverse_nil] at hr; exact hlen r (by simp [hr])) (by simpa using hcnt)
        simpa [tokenizeLoop, tokenizeStep, hx, MAX_TOKEN_SIZE] using this
      · have hpos : tok.length ≠ 0 := by
          intro h; exact hemp (List.length_eq_zero.mp h)
        have hempb : tok.isEmpty = false := by
          cases tok with
          | nil => exact absurd rfl hemp
          | cons _ _ => rfl
        simp only [List.filter_cons, hempb, Bool.not_false, if_true, List.length_cons]
          at hcnt ⊢
        have hroom : toks.length < MAX_NUM_TOKENS := by omega
        have := ih [] (toks ++ [String.mk tok]) (by
          intro r hr; simp only [List.reverse_nil] at hr; exact hlen r (by simp [hr])) (by
            simp only [List.length_append, List.length_singleton, List.reverse_nil]; omega)
        simp only [tokenizeLoop, tokenizeStep, hx, if_true, htok, hpos, ne_eq,
          not_false_eq_true, hroom, Option.some_bind]
        simpa using this
    · simp only [List.splitOnP.go, hx] at hlen hcnt ⊢
      have hrev : x :: tok.reverse = (tok ++ [x]).reverse := by simp
      rw [hrev] at hlen hcnt ⊢
      have htok : tok.length < MAX_TOKEN_SIZE := by
        obtain ⟨r, hr, hle⟩ := splitOnP_go_long isDelim xs (tok ++ [x]).reverse
        have := hlen r hr
        simp only [List.length_reverse, List.length_append, List.length_singleton] at hle
        omega
      have := ih (tok ++ [x]) toks hlen hcnt
      simp only [tokenizeLoop, tokenizeStep, hx, htok, if_true, Option.some_bind]
      simpa using this

theorem tokenizeLoop_delims (line : List Char) (hall : ∀ c ∈ line, isDelim c = true)
    (toks : List String) :
    tokenizeLoop line { token := [], tokens := toks } = some { token := [], tokens := toks } := by
  induction line with
  | nil => rfl
  | cons x xs ih =>
    have hx : isDelim x = true := hall x (by simp)
    have := ih (fun c hc => hall c (by simp [hc]))
    simpa [tokenizeLoop, tokenizeStep, hx, MAX_TOKEN_SIZE] using this

/-- Claim C2: on a line that ends in a delimiter, whose maximal runs of
non-delimiter characters are shorter than MAX_TOKEN_SIZE and fewer than
MAX_NUM_TOKENS, tokenize returns exactly those runs in order; none of them is
empty and none holds a delimiter; and a line made of delimiters only yields
the empty vector. -/
theorem tokenize_eq_maximalRuns (init : List Char) (d : Char) (hd : isDelim d = true)
    (hlen : ∀ t ∈ maximalRuns (init ++ [d]), t.length < MAX_TOKEN_SIZE)
    (hcnt : (maximalRuns (init ++ [d])).length < MAX_NUM_TOKENS) :
    tokenize (init ++ [d]) = some (maximalRuns (init ++ [d])) ∧
    (∀ t ∈ maximalRuns (init ++ [d]), t ≠ "" ∧ ∀ c ∈ t.data, isDelim c = false) ∧
    ((∀ c ∈ init, isDelim c = true) → tokenize (init ++ [d]) = some []) := by
  have hruns : maximalRuns (init ++ [d]) =
      ((List.splitOnP.go isDelim init []).filter (fun run => !run.isEmpty)).map String.mk := by
    simp [maximalRuns, List.splitOnP, splitOnP_go_snoc isDelim d hd]
  refine ⟨?_, ?_, ?_⟩
  · have hgo := tokenizeLoop_go (init ++ [d]) [] [] (by
        intro r hr
        simp only [List.reverse_nil, splitOnP_go_snoc isDelim d hd, List.mem_append,
          List.mem_singleton] at hr
        rcases hr with hr | hr
        · by_cases he : r = []
          · subst he; simp [MAX_TOKEN_SIZE]
          · have hb : r.isEmpty = false := by
              cases r with
              | nil => exact absurd rfl he
              | cons _ _ => rfl
            have := hlen (String.mk r) (by
              rw [hruns]
              exact List.mem_map.mpr ⟨r, List.mem_filter.mpr ⟨hr, by simp [hb]⟩, rfl⟩)
            simpa using this
        · subst hr; simp [MAX_TOKEN_SIZE]) (by
        simp only [List.reverse_nil, splitOnP_go_snoc isDelim d hd, List.dropLast_concat,
          List.length_nil, Nat.zero_add]
        rw [hruns, List.length_map] at hcnt
        omega)
    simp only [List.reverse_nil, splitOnP_go_snoc isDelim d hd, List.dropLast_concat,
      List.nil_append] at hgo
    rw [hruns, List.length_map] at hcnt
    simp only [tokenize, hgo, hruns, List.length_map, hcnt, if_true]
  · intro t ht
    rw [hruns] at ht
    obtain ⟨r, hr, rfl⟩ := List.mem_map.mp ht
    obtain ⟨hr1, hr2⟩ := List.mem_filter.mp hr
    refine ⟨?_, ?_⟩
    · intro h
      have : r = [] := by
        have := congrArg String.data h
        simpa using this
      subst this
      simp at hr2
    · intro c hc
      exact splitOnP_go_clean isDelim init [] (by simp) r hr1 c hc
  · intro hall
    have := tokenizeLoop_delims (init ++ [d]) (by
      intro c hc
      rcases List.mem_append.mp hc with h | h
      · exact hall c h
      · simp at h; subst h; exact hd) []
    simp [tokenize, this, MAX_NUM_TOKENS]

/-- Witness of C2 on the line of the description, "  ls   -la \t\n". -/
theorem tokenize_eq_maximalRuns_witness :
    tokenize "  ls   -la \t\n".data = some ["ls", "-la"] ∧
    (∀ t ∈ maximalRuns "  ls   -la \t\n".data,
      t ≠ "" ∧ ∀ c ∈ t.data, isDelim c = false) :=
  have h := tokenize_eq_maximalRuns "  ls   -la \t".data '\n' (by decide)
    (by decide) (by decide)
  ⟨h.1.trans (by decide), h.2.1⟩


/-! ## The job trackers -/

theorem trackerInsertFrom_first (pid : Int) (t : List Int) (k : Nat) (hk : t.getD k 0 = 0) :
    ∀ (n i : Nat), i ≤ k → k < i + n → (∀ j, i ≤ j → j < k → t.getD j 0 ≠ 0) →
      trackerInsertFrom pid n i t = t.set k pid := by
  intro n
  induction n with
  | zero => intro i h1 h2; omega
  | succ n ih =>
    intro i h1 h2 hfull
    by_cases hik : i = k
    · subst hik
      simp only [trackerInsertFrom, hk, if_true]
    · have hi : t.getD i 0 ≠ 0 := hfull i (le_refl i) (by omega)
      simp only [trackerInsertFrom, hi, if_false]
      exact ih (i + 1) (by omega) (by omega) (fun j hj1 hj2 => hfull j (by omega) hj2)

theorem trackerInsertFrom_full (pid : Int) (t : List Int) :
    ∀ (n i : Nat), (∀ j, i ≤ j → j < i + n → t.getD j 0 ≠ 0) →
      trackerInsertFrom pid n i t = t := by
  intro n
  induction n with
  | zero => intro i _; rfl
  | succ n ih =>
    intro i hfull
    have hi : t.getD i 0 ≠ 0 := hfull i (le_refl i) (by omega)
    simp only [trackerInsertFrom, hi, if_false]
    exact ih (i + 1) (fun j hj1 hj2 => hfull j (by omega) (by omega))

theorem trackerInsert_append_zero (pre rest : List Int) (pid : Int)
    (hpre : ∀ p ∈ pre, p ≠ 0) (hlen : pre.length < MAX_NUM_TOKENS) :
    trackerInsert (pre ++ 0 :: rest) pid = pre ++ pid :: rest := by
  have h := trackerInsertFrom_first pid (pre ++ 0 :: rest) pre.length (by
      rw [List.getD_eq_getElem?_getD, List.getElem?_append_right (le_refl _)]; simp)
    MAX_NUM_TOKENS 0 (Nat.zero_le _) (by omega) (by
      intro j _ hj
      rw [List.getD_append _ _ _ _ hj]
      rw [List.getD_eq_getElem _ _ hj]
      exact hpre _ (List.getElem_mem hj))
  rw [trackerInsert, h]
  simp

theorem foldl_trackerInsert (pids : List Int) (hpids : ∀ p ∈ pids, p ≠ 0)
    (hlen : pids.length ≤ MAX_NUM_TOKENS) :
    pids.foldl trackerInsert emptyTracker =
      pids ++ List.replicate (MAX_NUM_TOKENS - pids.length) 0 := by
  induction pids using List.reverseRecOn with
  | nil => simp [emptyTracker]
  | append_singleton l p ih =>
    simp only [List.length_append, List.length_singleton] at hlen
    have ih1 := ih (fun q hq => hpids q (by simp [hq])) (by omega)
    rw [List.foldl_append, List.foldl_cons, List.foldl_nil, ih1]
    have hrep : List.replicate (MAX_NUM_TOKENS - l.length) (0 : Int) =
        0 :: List.replicate (MAX_NUM_TOKENS - (l.length + 1)) 0 := by
      have : MAX_NUM_TOKENS - l.length = (MAX_NUM_TOKENS - (l.length + 1)) + 1 := by omega
      rw [this, List.replicate_succ]
    rw [hrep, trackerInsert_append_zero l _ p (fun q hq => hpids q (by simp [hq])) (by omega)]
    simp

theorem foldl_trackerClear (t : List Int) :
    ∀ k, k ≤ t.length →
      (List.range k).foldl trackerClear t = List.replicate k 0 ++ t.drop k := by
  intro k
  induction k with
  | zero => intro _; simp
  | succ k ih =>
    intro hk
    rw [List.range_succ, List.foldl_append, List.foldl_cons, List.foldl_nil, ih (by omega)]
    have hlt : k < t.length := by omega
    rw [trackerClear, List.set_append_right _ _ (by simp)]
    simp only [List.length_replicate, Nat.sub_self]
    rw [List.drop_eq_getElem_cons hlt, List.set_cons_zero, List.replicate_succ']
    simp

/-- Claim C5: the insert loop puts the pid into the lowest-indexed empty cell of
a 64-cell tracker and changes no other cell; on a tracker without empty cell it
changes nothing; from the all-empty tracker, N <= 64 non-zero pids end up in
cells 0..N-1 in insertion order, and clearing these N cells gives the all-empty
tracker back. -/
theorem trackerInsert_spec (t : List Int) (pid : Int) (ht : t.length = MAX_NUM_TOKENS) :
    (∀ i, i < MAX_NUM_TOKENS → t.getD i 0 = 0 → (∀ j, j < i → t.getD j 0 ≠ 0) →
      trackerInsert t pid = t.set i pid ∧
      (trackerInsert t pid).getD i 0 = pid ∧
      ∀ j, j ≠ i → (trackerInsert t pid).getD j 0 = t.getD j 0) ∧
    ((∀ i, i < MAX_NUM_TOKENS → t.getD i 0 ≠ 0) → trackerInsert t pid = t) ∧
    (∀ pids : List Int, pids.length ≤ MAX_NUM_TOKENS → (∀ p ∈ pids, p ≠ 0) →
      pids.foldl trackerInsert emptyTracker =
        pids ++ List.replicate (MAX_NUM_TOKENS - pids.length) 0 ∧
      (List.range pids.length).foldl trackerClear (pids.foldl trackerInsert emptyTracker) =
        emptyTracker) := by
  refine ⟨?_, ?_, ?_⟩
  · intro i hi hzero hfull
    have h := trackerInsertFrom_first pid t i hzero MAX_NUM_TOKENS 0 (Nat.zero_le _)
      (by omega) (fun j _ hj => hfull j hj)
    rw [trackerInsert, h]
    refine ⟨rfl, ?_, ?_⟩
    · rw [List.getD_eq_getElem _ _ (by simp [ht, hi])]
      simp
    · intro j hj
      simp [List.getD_eq_getElem?_getD, List.getElem?_set, Ne.symm hj]
  · intro hfull
    exact trackerInsertFrom_full pid t MAX_NUM_TOKENS 0 (fun j _ hj => hfull j (by omega))
  · intro pids hlen hpids
    have h1 := foldl_trackerInsert pids hpids hlen
    refine ⟨h1, ?_⟩
    rw [h1, foldl_trackerClear _ pids.length (by simp)]
    simp only [List.drop_left, emptyTracker]
    rw [← List.replicate_add]
    congr 1
    omega

/-- Witness of C5: a tracker whose first two cells are taken receives pid 7 in
cell 2. -/
theorem trackerInsert_spec_witness :
    trackerInsert (4 :: 5 :: List.replicate 62 0) 7 =
      (4 :: 5 :: List.replicate 62 0).set 2 7 :=
  ((trackerInsert_spec (4 :: 5 :: List.replicate 62 0) 7 (by decide)).1 2
    (by decide) (by decide) (by decide)).1


/-! ## The split loops -/

theorem fillBuffer_go (sep : String) (l : List String) :
    ∀ buf : List String,
      (List.splitOnP.go (fun x => x == sep) l buf.reverse).filter (fun piece => !piece.isEmpty) =
        ((fillBuffer sep l buf).1 ::
          List.splitOnP.go (fun x => x == sep) (fillBuffer sep l buf).2 []).filter
            (fun piece => !piece.isEmpty) := by
  induction l with
  | nil => intro buf; simp [List.splitOnP.go, fillBuffer, List.filter_cons]
  | cons t rest ih =>
    intro buf
    by_cases ht : t = sep
    · subst ht
      simp [List.splitOnP.go, fillBuffer]
    · have := ih (buf ++ [t])
      simpa [List.splitOnP.go, fillBuffer, ht] using this

theorem pieces_unfold (sep : String) (l : List String) :
    pieces sep l =
      (if (fillBuffer sep l []).1.length > 0 then [(fillBuffer sep l []).1] else []) ++
        pieces sep (fillBuffer sep l []).2 := by
  have h := fillBuffer_go sep l []
  simp only [List.reverse_nil] at h
  unfold pieces List.splitOn List.splitOnP
  rw [h, List.filter_cons]
  cases hb : (fillBuffer sep l []).1 with
  | nil => simp
  | cons a t => simp

theorem fillBuffer_length (sep : String) (l : List String) :
    ∀ buf : List String, l ≠ [] → (fillBuffer sep l buf).2.length < l.length := by
  induction l with
  | nil => intro buf h; exact absurd rfl h
  | cons t rest ih =>
    intro buf _
    by_cases ht : t = sep
    · simp [fillBuffer, ht]
    · simp only [fillBuffer, ht, if_false, List.length_cons]
      by_cases hr : rest = []
      · subst hr; simp [fillBuffer]
      · have := ih (buf ++ [t]) hr
        omega

theorem readStop_none (w : World) (h : w.stopIn = none) : readStop w = (false, w) := by
  simp [readStop, h]

theorem changeDir_stopIn (env : Env) (tokens : List String) (n : Nat) (w : World) :
    (changeDir env tokens n w).stopIn = w.stopIn := by
  unfold changeDir emit
  split
  · rfl
  · split <;> rfl

theorem changeDir_trace (env : Env) (tokens : List String) (n : Nat) (w : World) :
    (changeDir env tokens n w).trace = w.trace ++ cdTrace env tokens n := by
  unfold changeDir cdTrace emit
  split
  · rfl
  · split <;> simp

theorem changeDir_forks (env : Env) (tokens : List String) (n : Nat) (w : World) :
    (changeDir env tokens n w).forks = w.forks := by
  unfold changeDir emit
  split
  · rfl
  · split <;> rfl

theorem seqCommand_stopIn (env : Env) (p : List String) (w : World) (h : w.stopIn = none) :
    (seqCommand env p w).stopIn = none := by
  unfold seqCommand
  split
  · rw [changeDir_stopIn]; exact h
  · simp [fork, emit, waitpid, readStop, h]

theorem parCommand_stopIn (env : Env) (p : List String) (w : World) (h : w.stopIn = none) :
    (parCommand env p w).stopIn = none := by
  unfold parCommand
  split
  · rw [changeDir_stopIn]; exact h
  · simp [fork, emit, readStop, h]

theorem fillBuffer_written (sep : String) (l : List String) :
    ∀ buf : List String, (fillBuffer sep l buf).1.length ≤ buf.length + l.length := by
  induction l with
  | nil => intro buf; simp [fillBuffer]
  | cons t rest ih =>
    intro buf
    by_cases ht : t = sep
    · simp [fillBuffer, ht]
    · have := ih (buf ++ [t])
      simp only [fillBuffer, ht, if_false, List.length_cons]
      simp only [List.length_append, List.length_singleton] at this
      omega

/-- On a heap in which every cell `malloc` returns reads NULL, and without
interrupt, the sequential loop hands to `seqCommand`, once each and in input
order, the non-empty pieces of the vector cut at every "&&". -/
theorem seqLoop_clean (env : Env) (hclean : ∀ turn i, env.leftover turn i = false) :
    ∀ (fuel turn : Nat) (unread : List String) (w : World), w.stopIn = none →
      unread.length < fuel → unread.length < MAX_NUM_TOKENS →
      seqLoop env fuel turn unread w =
        Outcome.ok ((pieces "&&" unread).foldl (fun w1 piece => seqCommand env piece w1) w) := by
  intro fuel
  induction fuel with
  | zero => intro turn unread w _ h; omega
  | succ fuel ih =>
    intro turn unread w hstop hlen hshort64
    by_cases hu : unread = []
    · subst hu
      simp [seqLoop, pieces, List.splitOn, List.splitOnP, List.splitOnP.go]
    · have hshort := fillBuffer_length "&&" unread [] hu
      have hwritten := fillBuffer_written "&&" unread []
      simp only [List.length_nil, Nat.zero_add] at hwritten
      have hbound : ¬ MAX_NUM_TOKENS ≤ (fillBuffer "&&" unread []).1.length := by omega
      rw [pieces_unfold]
      simp only [seqLoop, hu, ne_eq, not_false_eq_true, if_true, readStop_none w hstop,
        Bool.not_false, seqTurn, hbound, if_false, hclean, Bool.false_eq_true]
      by_cases hb : (fillBuffer "&&" unread []).1.length > 0
      · simp only [hb, if_true, List.singleton_append, List.foldl_cons]
        exact ih _ _ _ (seqCommand_stopIn env _ w hstop) (by omega) (by omega)
      · simp only [hb, if_false, List.nil_append]
        exact ih _ _ _ hstop (by omega) (by omega)

/-- The same for the launch loop of parallel mode and "&&&". -/
theorem parLoop_clean (env : Env) (hclean : ∀ turn i, env.leftover turn i = false) :
    ∀ (fuel turn : Nat) (unread : List String) (w : World), w.stopIn = none →
      unread.length < fuel → unread.length < MAX_NUM_TOKENS →
      parLoop env fuel turn unread w =
        Outcome.ok ((pieces "&&&" unread).foldl (fun w1 piece => parCommand env piece w1) w) := by
  intro fuel
  induction fuel with
  | zero => intro turn unread w _ h; omega
  | succ fuel ih =>
    intro turn unread w hstop hlen hshort64
    by_cases hu : unread = []
    · subst hu
      simp [parLoop, pieces, List.splitOn, List.splitOnP, List.splitOnP.go]
    · have hshort := fillBuffer_length "&&&" unread [] hu
      have hwritten := fillBuffer_written "&&&" unread []
      simp only [List.length_nil, Nat.zero_add] at hwritten
      have hbound : ¬ MAX_NUM_TOKENS ≤ (fillBuffer "&&&" unread []).1.length := by omega
      rw [pieces_unfold]
      simp only [parLoop, hu, ne_eq, not_false_eq_true, if_true, readStop_none w hstop,
        Bool.not_false, parTurn, hbound, if_false, hclean, Bool.false_eq_true]
      by_cases hb : (fillBuffer "&&&" unread []).1.length > 0
      · simp only [hb, if_true, List.singleton_append, List.foldl_cons]
        exact ih _ _ _ (parCommand_stopIn env _ w hstop) (by omega) (by omega)
      · simp only [hb, if_false, List.nil_append]
        exact ih _ _ _ hstop (by omega) (by omega)

theorem launched_append (a b : List Event) : launched (a ++ b) = launched a ++ launched b := by
  simp [launched, List.filterMap_append]

theorem launched_cdTrace (env : Env) (tokens : List String) (n : Nat) :
    launched (cdTrace env tokens n) = [] := by
  unfold cdTrace
  split
  · rfl
  · split <;> rfl

theorem seqCommand_none (env : Env) (p : List String) (w : World) (h : w.stopIn = none) :
    (seqCommand env p w).trace = w.trace ++ seqTrace env w.forks [p] ∧
    (seqCommand env p w).forks = (if p[0]? = some "cd" then w.forks else w.forks + 1) ∧
    (seqCommand env p w).backgroundTracker = w.backgroundTracker ∧
    (seqCommand env p w).foregroundTracker = w.foregroundTracker := by
  unfold seqCommand
  by_cases hcd : p[0]? = some "cd"
  · simp only [hcd, if_true, seqTrace, List.append_nil]
    refine ⟨changeDir_trace _ _ _ _, changeDir_forks _ _ _ _, ?_, ?_⟩
    · unfold changeDir emit; split
      · rfl
      · split <;> rfl
    · unfold changeDir emit; split
      · rfl
      · split <;> rfl
  · simp [hcd, seqTrace, fork, emit, waitpid, readStop, h]

theorem foldl_seqCommand (env : Env) (ps : List (List String)) :
    ∀ w : World, w.stopIn = none →
      (ps.foldl (fun w1 piece => seqCommand env piece w1) w).trace =
        w.trace ++ seqTrace env w.forks ps := by
  induction ps with
  | nil => intro w _; simp [seqTrace]
  | cons p ps ih =>
    intro w h
    obtain ⟨h1, h2, _, _⟩ := seqCommand_none env p w h
    rw [List.foldl_cons, ih _ (seqCommand_stopIn env p w h), h1, h2]
    by_cases hcd : p[0]? = some "cd"
    · simp [seqTrace, hcd]
    · simp [seqTrace, hcd]

/-! ## The chain modes on a recycled buffer -/

/-- Claim C3 on the code: in "x && && z", and in "x &&& &&& z", the turn for
the empty piece copies no token into its tokensBuffer, launches nothing, and
then the free loop reads the first cell of that buffer, never written and not
NULL in memory that malloc has recycled, and hands it to free: the dispatch
stops on undefined behaviour and the piece z is never handed to cd or launch. -/
theorem split_loop_frees_unwritten_cell :
    (runMode ["x", "&&", "&&", "z"] = 2 ∧
      (∀ w, seqTurn demoEnv 1 ["&&", "z"] w = Outcome.fault Fault.wildFree) ∧
      dispatch demoEnv ["x", "&&", "&&", "z"] startWorld = Outcome.fault Fault.wildFree) ∧
    (runMode ["x", "&&&", "&&&", "z"] = 3 ∧
      (∀ w, parTurn demoEnv 1 ["&&&", "z"] w = Outcome.fault Fault.wildFree) ∧
      dispatch demoEnv ["x", "&&&", "&&&", "z"] startWorld = Outcome.fault Fault.wildFree) := by
  refine ⟨⟨by decide, fun w => rfl, by decide⟩, ⟨by decide, fun w => rfl, by decide⟩⟩

/-- Claim C8 on the code: in "x && && z", whatever exit statuses the children
report, the first turn forks x and waits for it, and the second turn, the one
of the empty piece, hands a cell it never wrote to free; the dispatch stops on
undefined behaviour there, before z is started. -/
theorem sequential_chain_stops_before_later_piece (exitStatus : Int → Int) :
    (∃ w1, seqTurn { demoEnv with exitStatus := exitStatus } 0 ["x", "&&", "&&", "z"]
        startWorld = Outcome.ok (["&&", "z"], w1) ∧
      w1.trace = [Event.fork ["x"] false 100, Event.waitpid 100 false] ∧
      seqTurn { demoEnv with exitStatus := exitStatus } 1 ["&&", "z"] w1 =
        Outcome.fault Fault.wildFree) ∧
    dispatch { demoEnv with exitStatus := exitStatus } ["x", "&&", "&&", "z"] startWorld =
      Outcome.fault Fault.wildFree := by
  refine ⟨⟨_, rfl, rfl, rfl⟩, ?_⟩
  · have hmode : runMode ["x", "&&", "&&", "z"] = 2 := by decide
    have hcnt : (scanTokens ["x", "&&", "&&", "z"]).tokenCnt = 4 := by decide
    simp only [dispatch, hmode, hcnt, runSequential]
    rfl

/-! ## Background and foreground mode -/

theorem getLast?_filter_of_last (p : String → Bool) (l : List String) (x : String)
    (hl : l.getLast? = some x) (hx : p x = true) : (l.filter p).getLast? = some x := by
  obtain ⟨init, rfl⟩ : ∃ init, l = init ++ [x] := by
    induction l using List.reverseRecOn with
    | nil => simp at hl
    | append_singleton init y _ =>
      simp at hl; subst hl; exact ⟨init, rfl⟩
  simp [List.filter_append, hx]

theorem runMode_no_chain (tokens : List String) (h2 : "&&" ∉ tokens) (h3 : "&&&" ∉ tokens) :
    runMode tokens = if tokens.getLast? = some "&" then 1 else 0 := by
  rw [runMode_lastControl, lastControlMode]
  cases hlc : (tokens.filter isControl).getLast? with
  | none =>
    by_cases hl : tokens.getLast? = some "&"
    · rw [getLast?_filter_of_last isControl tokens "&" hl (by decide)] at hlc
      cases hlc
    · simp [hl]
  | some tok =>
    have hmem := (List.mem_filter.mp (List.mem_of_getLast?_eq_some hlc)).1
    have hb : tok ≠ "&&" := fun h => h2 (h ▸ hmem)
    have hc : tok ≠ "&&&" := fun h => h3 (h ▸ hmem)
    simp [hb, hc]

/-- Claim C4: a vector without "&&" and "&&&" whose first token is neither cd
nor exit, and which is not the lone "&": when its last token is "&" it runs in
background mode and the one child forked, detached, gets the vector without
that last token; otherwise it runs in foreground mode and the one child forked
gets the whole vector, "&" tokens inside it included. -/
theorem single_command_vector (env : Env) (first : String) (rest : List String) (w : World)
    (h2 : "&&" ∉ first :: rest) (h3 : "&&&" ∉ first :: rest)
    (hcd : first ≠ "cd") (hexit : first ≠ "exit") (hamp : first :: rest ≠ ["&"]) :
    ((first :: rest).getLast? = some "&" →
      runMode (first :: rest) = 1 ∧
      ∃ w1, execute env (first :: rest) w = Outcome.ok (w1, false) ∧
        w1.trace = w.trace ++
          [Event.fork (first :: rest).dropLast true (env.forkRet w.forks)]) ∧
    ((first :: rest).getLast? ≠ some "&" →
      runMode (first :: rest) = 0 ∧
      ∃ w1, execute env (first :: rest) w = Outcome.ok (w1, false) ∧
        launched w1.trace = launched w.trace ++ [first :: rest]) := by
  have hcnt := (scanTokens_inv (first :: rest)).1
  have hmode := runMode_no_chain (first :: rest) h2 h3
  constructor
  · intro hl
    rw [if_pos hl] at hmode
    refine ⟨hmode, ?_⟩
    have hrest : rest ≠ [] := by
      intro h; subst h
      simp at hl
      exact hamp (by rw [hl])
    obtain ⟨r0, rs, rfl⟩ : ∃ r0 rs, rest = r0 :: rs := by
      cases rest with
      | nil => exact absurd rfl hrest
      | cons r0 rs => exact ⟨r0, rs, rfl⟩
    simp only [execute, List.getElem?_cons_zero, hexit, if_false, dispatch, hmode, hcnt,
      runBackground]
    simp [hcd, fork, emit, List.dropLast_eq_take]
  · intro hl
    rw [if_neg hl] at hmode
    refine ⟨hmode, ?_⟩
    simp only [execute, List.getElem?_cons_zero, hexit, if_false, dispatch, hmode, hcnt,
      runForeground, hcd]
    refine ⟨_, rfl, ?_⟩
    simp only [fork, waitpid, emit, readStop]
    cases w.stopIn with
    | none => simp [launched]
    | some k =>
      cases k with
      | zero => simp [launched]
      | succ k => simp [launched]

/-- Witness of C4: "a & b" runs in foreground mode and hands the child the
three tokens; "a b &" runs in background mode and hands the child "a b". -/
theorem single_command_vector_witness :
    (runMode ["a", "&", "b"] = 0 ∧
      ∃ w1, execute demoEnv ["a", "&", "b"] startWorld = Outcome.ok (w1, false) ∧
        launched w1.trace = [["a", "&", "b"]]) ∧
    (runMode ["a", "b", "&"] = 1 ∧
      ∃ w1, execute demoEnv ["a", "b", "&"] startWorld = Outcome.ok (w1, false) ∧
        w1.trace = [Event.fork ["a", "b"] true 100]) :=
  ⟨(single_command_vector demoEnv "a" ["&", "b"] startWorld (by decide) (by decide)
      (by decide) (by decide) (by decide)).2 (by decide),
   (single_command_vector demoEnv "a" ["b", "&"] startWorld (by decide) (by decide)
      (by decide) (by decide) (by decide)).1 (by decide)⟩


/-! ## The built-in cd -/

theorem cdTrace_spec (env : Env) (args : List String) :
    (2 ≤ args.length ↔ rejected (cdTrace env ("cd" :: args) (args.length + 1)) = true) ∧
    (args.length ≤ 1 ↔ attempted (cdTrace env ("cd" :: args) (args.length + 1)) = true) ∧
    (∀ path, args = [path] →
      Event.chdir (some path) ∈ cdTrace env ("cd" :: args) (args.length + 1)) ∧
    launched (cdTrace env ("cd" :: args) (args.length + 1)) = [] := by
  refine ⟨?_, ?_, ?_, launched_cdTrace _ _ _⟩
  · unfold cdTrace rejected
    by_cases h : args.length + 1 > 2
    · simp only [h, if_true]
      constructor
      · intro _; simp
      · intro _; omega
    · simp only [h, if_false]
      constructor
      · intro h2; omega
      · intro hm; split at hm <;> simp at hm
  · unfold cdTrace attempted
    by_cases h : args.length + 1 > 2
    · simp only [h, if_true]
      constructor
      · intro h2; omega
      · intro hm; simp at hm
    · simp only [h, if_false]
      constructor
      · intro _; split <;> simp
      · intro _; omega
  · intro path hp
    subst hp
    unfold cdTrace
    simp only [List.length_singleton]
    split
    · omega
    · split <;> simp

/-- Claim C6, as the code has it: a command whose first token is cd is never
forked, in any of the four modes.  In foreground mode, as a sequential step and
as a parallel step the events it adds are those of changeDir on the command:
the call is rejected with "Shell: Incorrect command", and no directory change
attempted, if and only if cd has two or more arguments; with at most one
argument the directory change is attempted, on the path when there is one. -/
theorem cd_runs_in_parent (env : Env) (args : List String) (w : World) :
    ((2 ≤ args.length ↔ rejected (cdTrace env ("cd" :: args) (args.length + 1)) = true) ∧
      (args.length ≤ 1 ↔ attempted (cdTrace env ("cd" :: args) (args.length + 1)) = true) ∧
      (∀ path, args = [path] →
        Event.chdir (some path) ∈ cdTrace env ("cd" :: args) (args.length + 1)) ∧
      launched (cdTrace env ("cd" :: args) (args.length + 1)) = []) ∧
    (runMode ("cd" :: args) = 0 →
      ∃ w1, execute env ("cd" :: args) w = Outcome.ok (w1, false) ∧ w1.forks = w.forks ∧
        w1.trace = w.trace ++ cdTrace env ("cd" :: args) (args.length + 1)) ∧
    ((seqCommand env ("cd" :: args) w).forks = w.forks ∧
      (seqCommand env ("cd" :: args) w).trace =
        w.trace ++ cdTrace env ("cd" :: args) (args.length + 1)) ∧
    ((parCommand env ("cd" :: args) w).forks = w.forks ∧
      (parCommand env ("cd" :: args) w).trace =
        w.trace ++ cdTrace env ("cd" :: args) (args.length + 1)) ∧
    (runMode ("cd" :: args) = 1 →
      ∃ w1, execute env ("cd" :: args) w = Outcome.ok (w1, false) ∧ w1.forks = w.forks ∧
        launched w1.trace = launched w.trace) := by
  have hcnt := (scanTokens_inv ("cd" :: args)).1
  refine ⟨cdTrace_spec env args, ?_, ?_, ?_, ?_⟩
  · intro hmode
    refine ⟨changeDir env ("cd" :: args) (args.length + 1) w, ?_, changeDir_forks _ _ _ _,
      changeDir_trace _ _ _ _⟩
    simp [execute, dispatch, hmode, hcnt, runForeground]
  · simp [seqCommand, changeDir_forks, changeDir_trace]
  · simp [parCommand, changeDir_forks, changeDir_trace]
  · intro hmode
    have hne : args ≠ [] := by
      intro h; subst h
      revert hmode; decide
    obtain ⟨a, as, rfl⟩ : ∃ a as, args = a :: as := by
      cases args with
      | nil => exact absurd rfl hne
      | cons a as => exact ⟨a, as, rfl⟩
    refine ⟨changeDir env (("cd" :: a :: as).take (as.length + 1)) (as.length + 2) w, ?_,
      changeDir_forks _ _ _ _, ?_⟩
    · simp [execute, dispatch, hmode, hcnt, runBackground]
    · rw [changeDir_trace, launched_append, launched_cdTrace, List.append_nil]

/-- Witness of C6: "cd dir" in foreground mode calls chdir on dir in the parent
and forks nothing; "cd a b" as a sequential step is rejected. -/
theorem cd_runs_in_parent_witness :
    (∃ w1, execute demoEnv ["cd", "dir"] startWorld = Outcome.ok (w1, false) ∧
      w1.forks = 0 ∧ w1.trace = [Event.chdir (some "dir")]) ∧
    (seqCommand demoEnv ["cd", "a", "b"] startWorld).trace =
      [Event.print "Shell: Incorrect command\n"] :=
  ⟨(cd_runs_in_parent demoEnv ["dir"] startWorld).2.1 (by decide),
   (cd_runs_in_parent demoEnv ["a", "b"] startWorld).2.2.1.2⟩

/-- Claim C6 fails as stated: "cd" alone in foreground mode is not rejected, the
directory change is attempted with the NULL that ends the vector; and "cd dir &"
is rejected although cd has exactly one argument, the count handed to changeDir
in background mode still including the "&". -/
theorem cd_argument_count_counterexample :
    (∃ w1, execute demoEnv ["cd"] startWorld = Outcome.ok (w1, false) ∧
      w1.trace = [Event.chdir none]) ∧
    (∃ w1, execute demoEnv ["cd", "dir", "&"] startWorld = Outcome.ok (w1, false) ∧
      w1.trace = [Event.print "Shell: Incorrect command\n"]) := by
  refine ⟨⟨_, rfl, ?_⟩, ⟨_, rfl, ?_⟩⟩ <;> decide

/-! ## The command cycle on a blank line -/

/-- Claim C7 on the code: the empty line skips the dispatch and goes to the
sweep, but a line of one space, or of a tab and a space, is tokenized to the
empty vector and the exit test then hands the NULL in tokens[0] to strcmp. -/
theorem blank_line_reads_first_token (env : Env) (w : World) :
    commandCycle env [] w = Outcome.ok (sweep env w, false) ∧
    tokenize (" ".data ++ ['\n']) = some [] ∧
    commandCycle env " ".data w = Outcome.fault Fault.nullDeref ∧
    commandCycle env "\t ".data w = Outcome.fault Fault.nullDeref := by
  refine ⟨rfl, by decide, ?_, ?_⟩
  · have h : tokenize (" ".data ++ ['\n']) = some [] := by decide
    simp only [commandCycle, h]
    rfl
  · have h : tokenize ("\t ".data ++ ['\n']) = some [] := by decide
    simp only [commandCycle, h]
    rfl

/-! ## Parallel mode under an interrupt -/

/-- Claim C9 on the code: in "a &&& b &&& c", when the flag is set after the
check that follows the fork of a and before the next loop test, the loop ends,
no SIGTERM is sent and pid 100 is waited for normally; in "a &&& b", when the
flag is set after the check that follows the fork of b, both children are
waited for normally and no SIGTERM is sent. -/
theorem parallel_interrupt_sends_no_sigterm :
    (∃ w1, dispatch demoEnv ["a", "&&&", "b", "&&&", "c"]
        { startWorld with stopIn := some 2 } = Outcome.ok w1 ∧
      w1.trace = [Event.fork ["a"] false 100, Event.waitpid 100 false]) ∧
    (∃ w1, dispatch demoEnv ["a", "&&&", "b"]
        { startWorld with stopIn := some 4 } = Outcome.ok w1 ∧
      w1.stopIn = some 0 ∧
      w1.trace = [Event.fork ["a"] false 100, Event.fork ["b"] false 101,
        Event.waitpid 100 false, Event.waitpid 101 false]) := by
  refine ⟨⟨_, rfl, ?_⟩, ⟨_, rfl, ?_, ?_⟩⟩ <;> decide

/-- Claim C10 on the code: in "a &&& b", when the flag is set between the loop
test and the check that follows the fork of a, the child with pid 100 is forked,
is not put into the foreground tracker, and the invocation ends without a
waitpid (and without a SIGTERM) for it. -/
theorem parallel_interrupt_leaves_child_unreaped :
    ∃ w1, dispatch demoEnv ["a", "&&&", "b"] { startWorld with stopIn := some 1 } =
        Outcome.ok w1 ∧
      w1.trace = [Event.fork ["a"] false 100] ∧
      w1.foregroundTracker = emptyTracker := by
  refine ⟨_, rfl, ?_, ?_⟩ <;> decide


/-! ## The loop budgets are never exhausted -/

theorem seqLoop_returns (env : Env) :
    ∀ (fuel turn : Nat) (unread : List String) (w : World), unread.length < fuel →
      seqLoop env fuel turn unread w ≠ Outcome.fault Fault.outOfFuel := by
  intro fuel
  induction fuel with
  | zero => intro turn unread w h; omega
  | succ fuel ih =>
    intro turn unread w hlen
    by_cases hu : unread = []
    · simp [seqLoop, hu]
    · have hshort := fillBuffer_length "&&" unread [] hu
      simp only [seqLoop, hu, ne_eq, not_false_eq_true, if_true]
      cases hs : (readStop w).1 with
      | true => simp
      | false =>
        simp only [Bool.not_false, if_true, seqTurn]
        by_cases hb : MAX_NUM_TOKENS ≤ (fillBuffer "&&" unread []).1.length
        · simp [hb]
        · by_cases hl : env.leftover turn (fillBuffer "&&" unread []).1.length = true
          · simp [hb, hl]
          · simp only [hb, hl, if_false]
            exact ih _ _ _ (by dsimp only; omega)

theorem parLoop_returns (env : Env) :
    ∀ (fuel turn : Nat) (unread : List String) (w : World), unread.length < fuel →
      parLoop env fuel turn unread w ≠ Outcome.fault Fault.outOfFuel := by
  intro fuel
  induction fuel with
  | zero => intro turn unread w h; omega
  | succ fuel ih =>
    intro turn unread w hlen
    by_cases hu : unread = []
    · simp [parLoop, hu]
    · have hshort := fillBuffer_length "&&&" unread [] hu
      simp only [parLoop, hu, ne_eq, not_false_eq_true, if_true]
      cases hs : (readStop w).1 with
      | true => simp
      | false =>
        simp only [Bool.not_false, if_true, parTurn]
        by_cases hb : MAX_NUM_TOKENS ≤ (fillBuffer "&&&" unread []).1.length
        · simp [hb]
        · by_cases hl : env.leftover turn (fillBuffer "&&&" unread []).1.length = true
          · simp [hb, hl]
          · simp only [hb, hl, if_false]
            exact ih _ _ _ (by dsimp only; omega)

theorem firstTrackedFrom_some (t : List Int) (k : Nat) :
    ∀ (n i : Nat), firstTrackedFrom t n i = some k →
      i ≤ k ∧ k < i + n ∧ t.getD k 0 ≠ 0 ∧ ∀ j, i ≤ j → j < k → t.getD j 0 = 0 := by
  intro n
  induction n with
  | zero => intro i h; simp [firstTrackedFrom] at h
  | succ n ih =>
    intro i h
    by_cases hi : t.getD i 0 ≠ 0
    · rw [firstTrackedFrom, if_pos hi] at h
      cases h
      exact ⟨le_refl _, by omega, hi, fun j h1 h2 => by omega⟩
    · rw [firstTrackedFrom, if_neg hi] at h
      obtain ⟨h1, h2, h3, h4⟩ := ih (i + 1) h
      refine ⟨by omega, by omega, h3, ?_⟩
      intro j hj1 hj2
      by_cases hji : j = i
      · subst hji; simpa using hi
      · exact h4 j (by omega) hj2

theorem reapForeground_returns (env : Env) :
    ∀ (fuel b : Nat) (w : World), (∀ j, j < b → w.foregroundTracker.getD j 0 = 0) →
      b ≤ MAX_NUM_TOKENS → MAX_NUM_TOKENS < b + fuel →
      ∃ w1, reapForeground env fuel w = some w1 := by
  intro fuel
  induction fuel with
  | zero => intro b w _ h1 h2; omega
  | succ fuel ih =>
    intro b w hz hb hfuel
    cases hf : firstTrackedFrom w.foregroundTracker MAX_NUM_TOKENS 0 with
    | none => exact ⟨w, by simp [reapForeground, hf]⟩
    | some k =>
      obtain ⟨_, hk, hnz, hbelow⟩ := firstTrackedFrom_some _ k _ _ hf
      have hbk : b ≤ k := by
        by_contra hlt
        exact hnz (hz k (by omega))
      simp only [reapForeground, hf]
      refine ih (k + 1) _ ?_ (by omega) (by omega)
      intro j hj
      simp only [waitpid, emit, trackerClear]
      by_cases hjk : j = k
      · subst hjk
        simp only [List.getD_eq_getElem?_getD, List.getElem?_set, if_true]
        split <;> rfl
      · have := hbelow j (Nat.zero_le _) (by omega)
        simpa [List.getD_eq_getElem?_getD, List.getElem?_set, Ne.symm hjk] using this

/-- The budgets that stand for the `while` loops in `dispatch` are never
exhausted: the dispatch returns or stops on undefined behaviour of the source,
whatever the vector, the trackers and the moment of the interrupt. -/
theorem dispatch_within_budget (env : Env) (tokens : List String) (w : World) :
    dispatch env tokens w ≠ Outcome.fault Fault.outOfFuel := by
  have hcnt := (scanTokens_inv tokens).1
  unfold dispatch
  simp only [hcnt]
  split
  · simp only [runBackground]
    cases (List.take (tokens.length - 1) tokens)[0]? with
    | none => simp
    | some first => by_cases h : first = "cd" <;> simp [h]
  · exact seqLoop_returns env (tokens.length + 1) 0 tokens w (by omega)
  · have h1 := parLoop_returns env (tokens.length + 1) 0 tokens w (by omega)
    simp only [runParallel]
    cases hp : parLoop env (tokens.length + 1) 0 tokens w with
    | ok w1 =>
      obtain ⟨w2, h2⟩ := reapForeground_returns env (MAX_NUM_TOKENS + 1) 0 w1
        (fun j hj => by omega) (Nat.zero_le _) (by omega)
      simp [h2, ofLoop]
    | fault f =>
      rw [hp] at h1
      simpa using h1
  · simp only [runForeground]
    cases tokens[0]? with
    | none => simp
    | some first => by_cases h : first = "cd" <;> simp [h]

end MyShell
